import Mathlib

/-!
Verification of `development/lib/build-config.ts` (build-types configuration
loader/validator of the metamask-extension repository) against its
natural-language specification.

The TypeScript source builds a `superstruct` schema (`BuildTypesStruct`) and
validates the parsed `builds.yml` document with `validate(data, schema,
{coerce: true})`.  We shallowly embed the JavaScript data values reaching the
validator (`JsVal`), and embed, per named struct of the source, the semantics
of `superstruct`'s `run` for that struct: coercion first, then the validator,
then child entries (failures accumulate in order), and the refiner last - a
refiner only runs when the value and all of its children validated.

`superstruct` and `lodash` are external dependencies of the repository; the
definitions below that embed their combinators (`refine`, `coerce`, `union`,
`record`, `object`, `optional`, `uniqWith`, ...) are modelled from those
libraries' behaviour, specialised to the structs the source composes.
-/

namespace BuildConfig

/-- A JavaScript value as produced by `yaml.load` (plus `undefined`, which
appears for absent object properties and as an explicit value). Objects carry
their own enumerable properties in insertion order, with distinct keys. -/
inductive JsVal where
  | str (s : String)
  | num (n : Int)
  | bool (b : Bool)
  | null
  | undefined
  | arr (elems : List JsVal)
  | obj (fields : List (String × JsVal))

mutual

/-- Decidable equality of JavaScript values. -/
def jsDecEq : (a b : JsVal) → Decidable (a = b)
  | .str a, .str b =>
      if h : a = b then .isTrue (by rw [h])
      else .isFalse (fun hh => h (JsVal.str.inj hh))
  | .num a, .num b =>
      if h : a = b then .isTrue (by rw [h])
      else .isFalse (fun hh => h (JsVal.num.inj hh))
  | .bool a, .bool b =>
      if h : a = b then .isTrue (by rw [h])
      else .isFalse (fun hh => h (JsVal.bool.inj hh))
  | .null, .null => .isTrue rfl
  | .undefined, .undefined => .isTrue rfl
  | .arr xs, .arr ys =>
      match jsDecEqList xs ys with
      | .isTrue h => .isTrue (by rw [h])
      | .isFalse h => .isFalse (fun hh => h (JsVal.arr.inj hh))
  | .obj xs, .obj ys =>
      match jsDecEqFields xs ys with
      | .isTrue h => .isTrue (by rw [h])
      | .isFalse h => .isFalse (fun hh => h (JsVal.obj.inj hh))
  | .str _, .num _ => .isFalse (fun h => JsVal.noConfusion h)
  | .str _, .bool _ => .isFalse (fun h => JsVal.noConfusion h)
  | .str _, .null => .isFalse (fun h => JsVal.noConfusion h)
  | .str _, .undefined => .isFalse (fun h => JsVal.noConfusion h)
  | .str _, .arr _ => .isFalse (fun h => JsVal.noConfusion h)
  | .str _, .obj _ => .isFalse (fun h => JsVal.noConfusion h)
  | .num _, .str _ => .isFalse (fun h => JsVal.noConfusion h)
  | .num _, .bool _ => .isFalse (fun h => JsVal.noConfusion h)
  | .num _, .null => .isFalse (fun h => JsVal.noConfusion h)
  | .num _, .undefined => .isFalse (fun h => JsVal.noConfusion h)
  | .num _, .arr _ => .isFalse (fun h => JsVal.noConfusion h)
  | .num _, .obj _ => .isFalse (fun h => JsVal.noConfusion h)
  | .bool _, .str _ => .isFalse (fun h => JsVal.noConfusion h)
  | .bool _, .num _ => .isFalse (fun h => JsVal.noConfusion h)
  | .bool _, .null => .isFalse (fun h => JsVal.noConfusion h)
  | .bool _, .undefined => .isFalse (fun h => JsVal.noConfusion h)
  | .bool _, .arr _ => .isFalse (fun h => JsVal.noConfusion h)
  | .bool _, .obj _ => .isFalse (fun h => JsVal.noConfusion h)
  | .null, .str _ => .isFalse (fun h => JsVal.noConfusion h)
  | .null, .num _ => .isFalse (fun h => JsVal.noConfusion h)
  | .null, .bool _ => .isFalse (fun h => JsVal.noConfusion h)
  | .null, .undefined => .isFalse (fun h => JsVal.noConfusion h)
  | .null, .arr _ => .isFalse (fun h => JsVal.noConfusion h)
  | .null, .obj _ => .isFalse (fun h => JsVal.noConfusion h)
  | .undefined, .str _ => .isFalse (fun h => JsVal.noConfusion h)
  | .undefined, .num _ => .isFalse (fun h => JsVal.noConfusion h)
  | .undefined, .bool _ => .isFalse (fun h => JsVal.noConfusion h)
  | .undefined, .null => .isFalse (fun h => JsVal.noConfusion h)
  | .undefined, .arr _ => .isFalse (fun h => JsVal.noConfusion h)
  | .undefined, .obj _ => .isFalse (fun h => JsVal.noConfusion h)
  | .arr _, .str _ => .isFalse (fun h => JsVal.noConfusion h)
  | .arr _, .num _ => .isFalse (fun h => JsVal.noConfusion h)
  | .arr _, .bool _ => .isFalse (fun h => JsVal.noConfusion h)
  | .arr _, .null => .isFalse (fun h => JsVal.noConfusion h)
  | .arr _, .undefined => .isFalse (fun h => JsVal.noConfusion h)
  | .arr _, .obj _ => .isFalse (fun h => JsVal.noConfusion h)
  | .obj _, .str _ => .isFalse (fun h => JsVal.noConfusion h)
  | .obj _, .num _ => .isFalse (fun h => JsVal.noConfusion h)
  | .obj _, .bool _ => .isFalse (fun h => JsVal.noConfusion h)
  | .obj _, .null => .isFalse (fun h => JsVal.noConfusion h)
  | .obj _, .undefined => .isFalse (fun h => JsVal.noConfusion h)
  | .obj _, .arr _ => .isFalse (fun h => JsVal.noConfusion h)

/-- Decidable equality of JavaScript value lists. -/
def jsDecEqList : (a b : List JsVal) → Decidable (a = b)
  | [], [] => .isTrue rfl
  | [], _ :: _ => .isFalse (fun h => List.noConfusion h)
  | _ :: _, [] => .isFalse (fun h => List.noConfusion h)
  | x :: xs, y :: ys =>
      match jsDecEq x y, jsDecEqList xs ys with
      | .isTrue h1, .isTrue h2 => .isTrue (by rw [h1, h2])
      | .isFalse h1, _ => .isFalse (fun hh => h1 (List.cons.inj hh).1)
      | _, .isFalse h2 => .isFalse (fun hh => h2 (List.cons.inj hh).2)

/-- Decidable equality of JavaScript object field lists. -/
def jsDecEqFields : (a b : List (String × JsVal)) → Decidable (a = b)
  | [], [] => .isTrue rfl
  | [], _ :: _ => .isFalse (fun h => List.noConfusion h)
  | _ :: _, [] => .isFalse (fun h => List.noConfusion h)
  | (k1, v1) :: xs, (k2, v2) :: ys =>
      if hk : k1 = k2 then
        match jsDecEq v1 v2, jsDecEqFields xs ys with
        | .isTrue h1, .isTrue h2 => .isTrue (by rw [hk, h1, h2])
        | .isFalse h1, _ =>
            .isFalse (fun hh => h1 (congrArg Prod.snd (List.cons.inj hh).1))
        | _, .isFalse h2 => .isFalse (fun hh => h2 (List.cons.inj hh).2)
      else
        .isFalse (fun hh => hk (congrArg Prod.fst (List.cons.inj hh).1))

end

instance : DecidableEq JsVal := jsDecEq

/-- One component of a superstruct failure path: an object key or an array
index. -/
inductive PathElem where
  | key (s : String)
  | idx (n : Nat)
deriving DecidableEq

/-- A superstruct validation failure: the path of the offending value inside
the document, and the human-readable message. -/
structure Failure where
  path : List PathElem
  message : String
deriving DecidableEq

/-- Outcome of running a struct on a value with `coerce: true`: the ordered
list of failures together with the coerced value, or an escaped JavaScript
exception (`crash`, a `TypeError`; see `runFeature`). -/
inductive Run where
  | res (failures : List Failure) (value : JsVal)
  | crash
deriving DecidableEq

/-- `typeof v === 'string'`. -/
def JsVal.isStr : JsVal → Bool
  | .str _ => true
  | _ => false

/-- Property lookup on an object's field list (`value[k]`, own properties). -/
def objLookup : List (String × JsVal) → String → Option JsVal
  | [], _ => none
  | (k', v) :: rest, k => if k' = k then some v else objLookup rest k

/-- `value[k] = v` on an object's field list: JavaScript updates an existing
own property in place (keeping its position) and appends a new one. -/
def objSet : List (String × JsVal) → String → JsVal → List (String × JsVal)
  | [], k, v => [(k, v)]
  | (k', v') :: rest, k, v =>
      if k' = k then (k, v) :: rest else (k', v') :: objSet rest k v

mutual

/-- JavaScript string conversion (template-literal interpolation) of a value:
plain objects render as `[object Object]`, arrays join their elements with
commas with `null`/`undefined` elements rendered empty. -/
def jsToString : JsVal → String
  | .str s => s
  | .num n => toString n
  | .bool b => if b then "true" else "false"
  | .null => "null"
  | .undefined => "undefined"
  | .arr xs => String.intercalate "," (jsToStringElems xs)
  | .obj _ => "[object Object]"

/-- Element renderings for JavaScript `Array.prototype.join`. -/
def jsToStringElems : List JsVal → List String
  | [] => []
  | .null :: xs => "" :: jsToStringElems xs
  | .undefined :: xs => "" :: jsToStringElems xs
  | x :: xs => jsToString x :: jsToStringElems xs

end

/-- superstruct's `print` used in failure messages: strings are
JSON-stringified (our inputs need no escaping), everything else is
template-stringified. -/
def printVal : JsVal → String
  | .str s => "\"" ++ s ++ "\""
  | v => jsToString v

/-- Prefix every failure path with an object key (a parent struct descending
into field `k`). -/
def pushKey (k : String) (fs : List Failure) : List Failure :=
  fs.map (fun f => ⟨PathElem.key k :: f.path, f.message⟩)

/-- Prefix every failure path with an array index. -/
def pushIdx (i : Nat) (fs : List Failure) : List Failure :=
  fs.map (fun f => ⟨PathElem.idx i :: f.path, f.message⟩)

/-- lodash `uniqWith` worker: keep a value when no already-kept value is
`eq`-related to it. -/
def uniqWithGo (eq : JsVal → JsVal → Bool) (res : List JsVal) :
    List JsVal → List JsVal
  | [] => res
  | x :: xs =>
      if res.any (fun y => eq x y) then uniqWithGo eq res xs
      else uniqWithGo eq (res ++ [x]) xs

/-- lodash `uniqWith` (comparator form; the comparator-less call of the source
is the same with value equality). -/
def uniqWith (eq : JsVal → JsVal → Bool) (l : List JsVal) : List JsVal :=
  uniqWithGo eq [] l

/-- Failures produced by `object(...)`'s handling of properties outside its
schema: each such property is validated against `never()`. -/
def unknownKeyFails (known : List String) (fields : List (String × JsVal)) :
    List Failure :=
  (fields.filter (fun f => !(known.contains f.1))).map
    (fun f => ⟨[PathElem.key f.1],
      "Expected a value of type `never`, but received: `" ++ (printVal f.2 ++ "`")⟩)

/-- `string()`: failures (no coercion). -/
def runString (v : JsVal) : List Failure :=
  match v with
  | .str _ => []
  | _ => [⟨[], "Expected a string, but received: " ++ printVal v⟩]

/-- `boolean()`: failures (no coercion). -/
def runBoolean (v : JsVal) : List Failure :=
  match v with
  | .bool _ => []
  | _ => [⟨[], "Expected a value of type `boolean`, but received: `"
            ++ printVal v ++ "`"⟩]

/-- `union([string(), literal(false)])` used for `manifestOverrides` and
`buildNameOverride`: failures (neither branch coerces).  On mismatch the union
yields its own failure followed by every branch's failures (the `string()`
mismatch and the `literal(false)` mismatch). -/
def runStringOrFalse (v : JsVal) : List Failure :=
  if v.isStr then []
  else if v = .bool false then []
  else Failure.mk []
        ("Expected the value to satisfy a union of `string | literal`, but received: `"
          ++ (printVal v ++ "`"))
    :: (runString v
        ++ [Failure.mk [] ("Expected the literal `false`, but received: " ++ printVal v)])

/-- The coercion condition of `EnvDefinitionStruct`:
`refine(record(string(), any()), ...)` requiring exactly one own key.  Used
only through `is(value, condition)`, so only its boolean outcome matters. -/
def envDefCondition (v : JsVal) : Bool :=
  match v with
  | .obj fields => fields.length == 1
  | _ => false

/-- The coercion function of `EnvDefinitionStruct`:
`{key: Object.keys(value)[0], value: Object.values(value)[0]}`.  Only applied
when `envDefCondition` holds, i.e. on one-key objects. -/
def envDefCoerce (v : JsVal) : JsVal :=
  match v with
  | .obj (f :: _) => .obj [("key", .str f.1), ("value", f.2)]
  | _ => v

/-- The coercer of `EnvDefinitionStruct` (`coerce` applies the coercion
function exactly when the condition struct accepts the value). -/
def envDefStep (v : JsVal) : JsVal :=
  if envDefCondition v then envDefCoerce v else v

/-- Validation against `object({key: string(), value: unknown()})`: the target
shape of `EnvDefinitionStruct`.  `value` is `unknown()` (accepts anything,
including an absent property); keys outside the schema are rejected by
`never()`. -/
def runKeyValueObject (v : JsVal) : List Failure :=
  match v with
  | .obj fields =>
      (match objLookup fields "key" with
        | some (.str _) => []
        | some w => [⟨[PathElem.key "key"],
            "Expected a string, but received: " ++ printVal w⟩]
        | none => [⟨[PathElem.key "key"],
            "Expected a string, but received: " ++ printVal .undefined⟩])
      ++ unknownKeyFails ["key", "value"] fields
  | _ => [⟨[], "Expected an object, but received: " ++ printVal v⟩]

/-- `EnvDefinitionStruct` run with `coerce: true`: apply the conditional
coercer, then validate the result against the `{key, value}` object shape. -/
def runEnvDefinition (v : JsVal) : List Failure × JsVal :=
  let v' := envDefStep v
  (runKeyValueObject v', v')

/-- The union-mismatch failure message of the env-entry union
(`union([string(), EnvDefinitionStruct])`; the member types print as
`string | object`). -/
def unionEnvMsg (v : JsVal) : String :=
  "Expected the value to satisfy a union of `string | object`, but received: `"
    ++ (printVal v ++ "`")

/-- One element of `EnvArrayStruct`: `union([string(), EnvDefinitionStruct])`
run with `coerce: true`.  The union's coercer applies the coercer of the first
branch that validates (so strings are kept as-is and never coerced); its
validator accepts the coerced value when some branch accepts it, and on
mismatch yields the union's own failure followed by every branch's nested
failures - here the `string()` mismatch at the entry's path and the
`{key, value}` object-shape failures (run without coercion) at their own
sub-paths. -/
def runEnvEntry (v : JsVal) : List Failure × JsVal :=
  let coerced :=
    if v.isStr then v
    else if (runEnvDefinition v).1.isEmpty then (runEnvDefinition v).2
    else v
  let fails :=
    if coerced.isStr then []
    else if (runKeyValueObject coerced).isEmpty then []
    else Failure.mk [] (unionEnvMsg coerced)
      :: (runString coerced ++ runKeyValueObject coerced)
  (fails, coerced)

/-- The key of an (already coerced) env entry, as used by the `unique`
equality function of `EnvArrayStruct`: `typeof a === 'string' ? a : a.key`
(`a.key` is `undefined` on shapes that never reach the refiner). -/
def envEntryKey (v : JsVal) : JsVal :=
  match v with
  | .str s => .str s
  | .obj fields => (objLookup fields "key").getD .undefined
  | _ => .undefined

/-- The equality function passed to `unique` by `EnvArrayStruct`:
compare entries by key only. -/
def envEq (a b : JsVal) : Bool :=
  envEntryKey a == envEntryKey b

/-- Run every element of an env array (at consecutive indices), collecting
failures in order and the coerced elements. -/
def runEnvElems (i : Nat) : List JsVal → List Failure × List JsVal
  | [] => ([], [])
  | e :: es =>
      let r := runEnvEntry e
      let rest := runEnvElems (i + 1) es
      (pushIdx i r.1 ++ rest.1, r.2 :: rest.2)

/-- `EnvArrayStruct`: `unique(array(union([string(), EnvDefinitionStruct])),
byKey)` run with `coerce: true`.  The `unique` refinement (`uniqWith` length
check, failure "Array contains duplicated values" at the array's path) only
runs when the array and all of its elements validated. -/
def runEnvArray (v : JsVal) : List Failure × JsVal :=
  match v with
  | .arr elems =>
      let r := runEnvElems 0 elems
      let uniqueFails :=
        if r.1.isEmpty then
          if (uniqWith envEq r.2).length == r.2.length then []
          else [⟨[], "Array contains duplicated values"⟩]
        else []
      (r.1 ++ uniqueFails, .arr r.2)
  | _ => ([⟨[], "Expected an array value, but received: " ++ printVal v⟩], v)

/-- `unique(array(string()))` used for a build type's `features` list, run
with `coerce: true` (nothing coerces; the comparator-less `uniqWith` compares
values). -/
def runStringArrayUnique (v : JsVal) : List Failure :=
  match v with
  | .arr elems =>
      let elemFails :=
        (elems.enum.map (fun p => pushIdx p.1 (runString p.2))).flatten
      if elemFails.isEmpty then
        if (uniqWith (fun a b => a == b) elems).length == elems.length then []
        else [⟨[], "Array contains duplicated values"⟩]
      else elemFails
  | _ => [⟨[], "Expected an array value, but received: " ++ printVal v⟩]

/-- `BuildTypeStruct` run with `coerce: true`.  Schema order: `features`,
`env`, `isPrerelease`, `manifestOverrides`, `buildNameOverride`; the last two
are required, the rest optional (`optional` accepts exactly `undefined`).
On success every schema key is written back onto the object (absent optional
keys are materialised as `undefined`, as superstruct's coercion write-back
does); the value component is ignored by callers when failures exist. -/
def runBuildType (v : JsVal) : List Failure × JsVal :=
  match v with
  | .obj fields =>
      let featuresV := (objLookup fields "features").getD .undefined
      let featFails :=
        if featuresV = .undefined then []
        else pushKey "features" (runStringArrayUnique featuresV)
      let envV := (objLookup fields "env").getD .undefined
      let envR :=
        if envV = .undefined then ([], JsVal.undefined) else runEnvArray envV
      let preV := (objLookup fields "isPrerelease").getD .undefined
      let preFails :=
        if preV = .undefined then [] else pushKey "isPrerelease" (runBoolean preV)
      let moV := (objLookup fields "manifestOverrides").getD .undefined
      let bnV := (objLookup fields "buildNameOverride").getD .undefined
      (featFails ++ pushKey "env" envR.1 ++ preFails
        ++ pushKey "manifestOverrides" (runStringOrFalse moV)
        ++ pushKey "buildNameOverride" (runStringOrFalse bnV)
        ++ unknownKeyFails
            ["features", "env", "isPrerelease", "manifestOverrides",
             "buildNameOverride"] fields,
       .obj (objSet (objSet (objSet (objSet (objSet fields
          "features" featuresV) "env" envR.2) "isPrerelease" preV)
          "manifestOverrides" moV) "buildNameOverride" bnV))
  | _ => ([⟨[], "Expected an object, but received: " ++ printVal v⟩], v)

/-- Run the entries of `record(string(), BuildTypeStruct)` (keys are strings
by construction of `JsVal.obj` and validate against `string()` trivially). -/
def runBuildTypeEntries : List (String × JsVal) → List Failure × List (String × JsVal)
  | [] => ([], [])
  | (name, v) :: rest =>
      let r := runBuildType v
      let rr := runBuildTypeEntries rest
      (pushKey name r.1 ++ rr.1, (name, r.2) :: rr.2)

/-- `record(string(), BuildTypeStruct)` run with `coerce: true`. -/
def runBuildTypesRecord (v : JsVal) : List Failure × JsVal :=
  match v with
  | .obj fields =>
      let r := runBuildTypeEntries fields
      (r.1, .obj r.2)
  | _ => ([⟨[], "Expected an object, but received: " ++ printVal v⟩], v)

/-- `coerce(FeatureStruct, nullable(never()), () => ({}))` run with
`coerce: true`: a `null` feature body is coerced to the empty object, then
`FeatureStruct` (`{env: optional(EnvArrayStruct), assets: optional(AssetStruct)}`)
is applied.

`AssetStruct` is imported from `build-config.type.ts`, where it is exported
only as a TypeScript *type* (`CopyAssetStruct & ExclusiveIncludeAssetStruct`);
the runtime import is `undefined`, so the `assets` field struct is
`optional(undefined)`: it accepts `undefined` and evaluates
`undefined.validator(...)` - a thrown `TypeError` - on any present value.
The crash escapes `loadBuildTypesConfig` whether or not other failures were
collected (superstruct reports failures lazily), so it is modelled as
dominating the outcome. -/
def runFeature (v : JsVal) : Run :=
  let v0 := if v = .null then JsVal.obj [] else v
  match v0 with
  | .obj fields =>
      let envV := (objLookup fields "env").getD .undefined
      let envR :=
        if envV = .undefined then ([], JsVal.undefined) else runEnvArray envV
      if (objLookup fields "assets").getD .undefined ≠ .undefined then Run.crash
      else
        Run.res (pushKey "env" envR.1 ++ unknownKeyFails ["env", "assets"] fields)
          (.obj (objSet (objSet fields "env" envR.2) "assets" JsVal.undefined))
  | _ => Run.res [⟨[], "Expected an object, but received: " ++ printVal v0⟩] v0

/-- Run the entries of the features record, threading the `TypeError` crash of
`runFeature`. -/
def runFeatureEntries : List (String × JsVal) → Option (List Failure × List (String × JsVal))
  | [] => some ([], [])
  | (name, v) :: rest =>
      match runFeature v, runFeatureEntries rest with
      | Run.crash, _ => none
      | _, none => none
      | Run.res fs cv, some rr =>
          some (pushKey name fs ++ rr.1, (name, cv) :: rr.2)

/-- The env sequence of an (already coerced) feature value, as read by the
conflict refiner: `feature?.env ?? []`. -/
def featureEnvList (v : JsVal) : List JsVal :=
  match v with
  | .obj fields =>
      match objLookup fields "env" with
      | some (.arr es) => es
      | _ => []
  | _ => []

/-- The conflict failure message.  The source template interpolates the whole
entry (`` `... of "${env}" env variable ...` ``), not its key, and the entry
there is always a coerced `{key, value}` object, which JavaScript renders as
`[object Object]`. -/
def conflictMessage (entry : JsVal) : String :=
  "Multiple defined features have a definition of \"" ++ jsToString entry
    ++ "\" env variable, resulting in a conflict"

/-- The inner loop of the `FeaturesStruct` refiner over one feature's env
sequence: bare-string entries are skipped (`typeof env !== 'string'`); for an
object entry whose key is already in the running `definitions` set a conflict
failure is yielded; the key is then added to the set. -/
def scanEnvEntries (defs : List JsVal) (fails : List Failure) :
    List JsVal → List JsVal × List Failure
  | [] => (defs, fails)
  | e :: es =>
      if e.isStr then scanEnvEntries defs fails es
      else
        let k := envEntryKey e
        scanEnvEntries (if defs.contains k then defs else defs ++ [k])
          (if defs.contains k then fails ++ [⟨[], conflictMessage e⟩] else fails)
          es

/-- The outer loop of the `FeaturesStruct` refiner over `Object.values` of the
features record: the `definitions` set persists across features (it is never
reset between features). -/
def scanFeatures (defs : List JsVal) (fails : List Failure) :
    List (String × JsVal) → List JsVal × List Failure
  | [] => (defs, fails)
  | (_, f) :: rest =>
      let r := scanEnvEntries defs fails (featureEnvList f)
      scanFeatures r.1 r.2 rest

/-- All failures yielded by the `FeaturesStruct` refiner on the (coerced)
features record. -/
def featureConflictScan (features : List (String × JsVal)) : List Failure :=
  (scanFeatures [] [] features).2

/-- `FeaturesStruct` run with `coerce: true`: the record of features, refined
by the cross-feature conflict scan.  Being a refinement, the scan only runs
when the record and every feature in it validated. -/
def runFeatures (v : JsVal) : Run :=
  match v with
  | .obj fields =>
      match runFeatureEntries fields with
      | none => Run.crash
      | some r =>
          let refineFails := if r.1.isEmpty then featureConflictScan r.2 else []
          Run.res (r.1 ++ refineFails) (.obj r.2)
  | _ => Run.res [⟨[], "Expected an object, but received: " ++ printVal v⟩] v

/-- The referential failure message of the `BuildTypesStruct` refiner. -/
def defaultMissingMsg (d : String) : String :=
  "Default build type \"" ++ d ++ "\" does not exist in builds declarations"

/-- The `BuildTypesStruct` refiner:
`Object.keys(value.buildTypes).includes(value.default)`.  It only runs after
all per-field validation passed, at which point `default` is a string and
`buildTypes` an object; the fall-through arm is unreachable from
`runBuildTypes`. -/
def defaultExistsCheck (defaultV btVal : JsVal) : List Failure :=
  match defaultV, btVal with
  | .str d, .obj bts =>
      if (bts.map Prod.fst).contains d then []
      else [⟨[], defaultMissingMsg d⟩]
  | _, _ => []

/-- `BuildTypesStruct` run with `coerce: true` - the whole document schema:
`object({default, buildTypes, features, env})` (all four required, unknown
top-level keys rejected), refined by the default-exists check, which runs only
when every field validated. -/
def runBuildTypes (v : JsVal) : Run :=
  match v with
  | .obj fields =>
      let defaultV := (objLookup fields "default").getD .undefined
      let btR := runBuildTypesRecord ((objLookup fields "buildTypes").getD .undefined)
      match runFeatures ((objLookup fields "features").getD .undefined) with
      | Run.crash => Run.crash
      | Run.res featFails featVal =>
          let envR := runEnvArray ((objLookup fields "env").getD .undefined)
          let fieldFails :=
            pushKey "default" (runString defaultV)
            ++ pushKey "buildTypes" btR.1
            ++ pushKey "features" featFails
            ++ pushKey "env" envR.1
            ++ unknownKeyFails ["default", "buildTypes", "features", "env"] fields
          let refineFails :=
            if fieldFails.isEmpty then defaultExistsCheck defaultV btR.2 else []
          Run.res (fieldFails ++ refineFails)
            (.obj (objSet (objSet (objSet (objSet fields "default" defaultV)
              "buildTypes" btR.2) "features" featVal) "env" envR.2))
  | _ => Run.res [⟨[], "Expected an object, but received: " ++ printVal v⟩] v

/-- The module-level state of `build-config.ts`: the `cachedBuildTypes`
variable (initially `null`) plus a count of reads of `builds.yml`. -/
structure LoadState where
  cachedBuildTypes : Option JsVal
  reads : Nat
deriving DecidableEq

/-- What a call of `loadBuildTypesConfig` does: return a document, throw the
`AssertionError` built from the validation failures, or escape with the
`TypeError` of the broken `assets` struct. -/
inductive LoadOutcome where
  | ok (v : JsVal)
  | assertionError (failures : List Failure)
  | typeError
deriving DecidableEq

/-- `loadBuildTypesConfig`, with the file read and module-level cache made
explicit: `buildsFile` is the value `yaml.load` produces from `builds.yml`.
On a cache hit the cached value is returned without reading the file.
Otherwise the file is read and validated; on failure the function throws
without touching the cache; on success it assigns `cachedBuildTypes = result`
but returns `buildsData` - the raw parsed value, not the validated `result`
(the source's final line is `return buildsData`). -/
def loadBuildTypesConfig (buildsFile : JsVal) (st : LoadState) :
    LoadOutcome × LoadState :=
  match st.cachedBuildTypes with
  | some cached => (.ok cached, st)
  | none =>
      let st' : LoadState := ⟨none, st.reads + 1⟩
      match runBuildTypes buildsFile with
      | Run.crash => (.typeError, st')
      | Run.res failures result =>
          if failures.isEmpty then
            (.ok buildsFile, ⟨some result, st.reads + 1⟩)
          else
            (.assertionError failures, st')

/-- The failures of a validation outcome (empty for a crash). -/
def runFailures : Run → List Failure
  | .res fs _ => fs
  | .crash => []

/-- Whether validation succeeded (no failures, no crash). -/
def isSuccess : Run → Bool
  | .res [] _ => true
  | _ => false

/-- The `env` field of the document a successful-or-not validation returned. -/
def docEnv : Run → Option JsVal
  | .res _ (.obj fields) => objLookup fields "env"
  | _ => none

/-! ### Concrete documents used by the claims -/

/-- A minimal valid build type: just the two required fields. -/
def btMinimal : JsVal :=
  .obj [("manifestOverrides", .bool false), ("buildNameOverride", .bool false)]

/-- Assemble a parsed `builds.yml` document from its four top-level fields. -/
def mkDoc (d : String) (bts feats : List (String × JsVal)) (env : List JsVal) :
    JsVal :=
  .obj [("default", .str d), ("buildTypes", .obj bts),
        ("features", .obj feats), ("env", .arr env)]

/-- `env: ["FOO"]` at the global scope. -/
def docBareString : JsVal := mkDoc "stable" [("stable", btMinimal)] [] [.str "FOO"]

/-- `env: [{FOO: undefined}]` at the global scope. -/
def docObjectForm : JsVal :=
  mkDoc "stable" [("stable", btMinimal)] [] [.obj [("FOO", .undefined)]]

/-- The claim C2 example: `features: {a: {env: ["X"]}, b: {env: ["X"]}}`. -/
def docTwoBareFeatures : JsVal :=
  mkDoc "stable" [("stable", btMinimal)]
    [("a", .obj [("env", .arr [.str "X"])]),
     ("b", .obj [("env", .arr [.str "X"])])] []

/-- Document whose first load is examined for C3: the global env uses the
object shorthand, so coercion changes the document. -/
def rawBuildsC3 : JsVal :=
  mkDoc "stable" [("stable", btMinimal)] [] [.obj [("FOO", .num 1)]]

/-- A feature with a bare-string asset, `{assets: "src/**"}`. -/
def docStringAsset : JsVal :=
  mkDoc "stable" [("stable", btMinimal)]
    [("a", .obj [("assets", .str "src/**")])] []

/-- Document with a duplicated env key (`"X"` and `{X: 1}`) in
`buildTypes.beta.env`. -/
def docDupBetaEnv : JsVal :=
  mkDoc "stable"
    [("stable", btMinimal),
     ("beta", .obj [("manifestOverrides", .bool false),
                    ("buildNameOverride", .bool false),
                    ("env", .arr [.str "X", .obj [("X", .num 1)]])])] [] []

/-- Document with a two-key env entry object, `env: [{A: 1, B: 2}]`. -/
def docTwoKeyEntry : JsVal :=
  mkDoc "stable" [("stable", btMinimal)] [] [.obj [("A", .num 1), ("B", .num 2)]]

/-- An already-canonical document (all env entries in `{key, value}` form,
the asset in canonical `{exclusiveInclude}` form, `default` existing). -/
def docCanonicalWithAsset : JsVal :=
  mkDoc "stable" [("stable", btMinimal)]
    [("a", .obj [("env", .arr [.obj [("key", .str "K"), ("value", .num 1)]]),
                 ("assets", .obj [("exclusiveInclude", .str "p")])])]
    [.obj [("key", .str "G"), ("value", .str "v")]]

/-- The same canonical document with the feature's `assets` removed. -/
def docCanonicalNoAsset : JsVal :=
  mkDoc "stable" [("stable", btMinimal)]
    [("a", .obj [("env", .arr [.obj [("key", .str "K"), ("value", .num 1)]])])]
    [.obj [("key", .str "G"), ("value", .str "v")]]

/-- `default: "missing"` with `buildTypes: {stable: ...}`. -/
def docDefaultMissing : JsVal := mkDoc "missing" [("stable", btMinimal)] [] []

/-- `default: "stable"` with `buildTypes: {stable: ...}`. -/
def docDefaultOk : JsVal := mkDoc "stable" [("stable", btMinimal)] [] []

/-- A feature whose env repeats the key `X` in object form twice. -/
def featDupObjKeys : JsVal :=
  .obj [("env", .arr [.obj [("X", .num 1)], .obj [("X", .num 2)]])]

/-- Document whose single feature repeats an object-form env key. -/
def docFeatDup : JsVal :=
  mkDoc "stable" [("stable", btMinimal)] [("a", featDupObjKeys)] []

/-- A feature declaring the env key `X` in object form with value `n`. -/
def featObjX (n : Int) : JsVal :=
  .obj [("env", .arr [.obj [("X", .num n)]])]

/-- The coerced form of `featObjX n`. -/
def cFeatObjX (n : Int) : JsVal :=
  .obj [("env", .arr [.obj [("key", .str "X"), ("value", .num n)]]),
        ("assets", .undefined)]

/-- Three features all declaring `X` in object form. -/
def docThreeObjFeatures : JsVal :=
  mkDoc "stable" [("stable", btMinimal)]
    [("a", featObjX 1), ("b", featObjX 2), ("c", featObjX 3)] []

/-- The coerced form of `featDupObjKeys`. -/
def cFeatDup : JsVal :=
  .obj [("env", .arr [.obj [("key", .str "X"), ("value", .num 1)],
                      .obj [("key", .str "X"), ("value", .num 2)]]),
        ("assets", .undefined)]

/-- The normalised form of `btMinimal` (absent optional keys materialised). -/
def btMinimalNorm : JsVal :=
  .obj [("manifestOverrides", .bool false), ("buildNameOverride", .bool false),
        ("features", .undefined), ("env", .undefined), ("isPrerelease", .undefined)]

/-- The normalised form of `docDefaultOk`. -/
def docDefaultOkNorm : JsVal := mkDoc "stable" [("stable", btMinimalNorm)] [] []

/-- The normalised form of `docDefaultMissing`. -/
def docDefaultMissingNorm : JsVal :=
  mkDoc "missing" [("stable", btMinimalNorm)] [] []

/-- Key of a raw env entry as validation sees it: the entry itself for a bare
string, the declared key after coercion for an object form. -/
def entryKey (e : JsVal) : JsVal := envEntryKey (runEnvEntry e).2

/-- Whether a load call returned a document (as opposed to throwing). -/
def LoadOutcome.isOk : LoadOutcome → Bool
  | .ok _ => true
  | _ => false

/-! ### Helper lemmas -/

theorem objLookup_objSet_self (fs : List (String × JsVal)) (k : String) (v : JsVal) :
    objLookup (objSet fs k v) k = some v := by
  induction fs with
  | nil => simp [objSet, objLookup]
  | cons hd tl ih =>
      obtain ⟨k', v'⟩ := hd
      by_cases h : k' = k
      · simp [objSet, objLookup, h]
      · simp [objSet, objLookup, h, ih]

theorem objLookup_objSet_ne (fs : List (String × JsVal)) {k k' : String} (v : JsVal)
    (h : k' ≠ k) : objLookup (objSet fs k v) k' = objLookup fs k' := by
  induction fs with
  | nil => simp [objSet, objLookup, Ne.symm h]
  | cons hd tl ih =>
      obtain ⟨k0, v0⟩ := hd
      by_cases h0 : k0 = k
      · subst h0
        simp [objSet, objLookup, Ne.symm h]
      · simp only [objSet, if_neg h0, objLookup, ih]

theorem runString_eq_nil_iff (v : JsVal) : runString v = [] ↔ v.isStr = true := by
  cases v <;> simp [runString, JsVal.isStr]

theorem runEnvElems_fst_nil {elems : List JsVal}
    (h : ∀ e ∈ elems, (runEnvEntry e).1 = []) :
    ∀ i, (runEnvElems i elems).1 = [] := by
  induction elems with
  | nil => intro i; simp [runEnvElems]
  | cons e es ih =>
      intro i
      have he := h e (by simp)
      have hes := ih (fun x hx => h x (by simp [hx]))
      simp [runEnvElems, he, hes, pushIdx]

theorem runEnvElems_snd (elems : List JsVal) :
    ∀ i, (runEnvElems i elems).2 = elems.map (fun e => (runEnvEntry e).2) := by
  induction elems with
  | nil => intro i; simp [runEnvElems]
  | cons e es ih => intro i; simp [runEnvElems, ih]

theorem any_beq_iff_mem_map (f : JsVal → JsVal) (res : List JsVal) (x : JsVal) :
    (res.any (fun y => f x == f y) = true) ↔ f x ∈ res.map f := by
  constructor
  · intro h
    obtain ⟨y, hy, he⟩ := List.any_eq_true.mp h
    exact List.mem_map.mpr ⟨y, hy, (beq_iff_eq.mp he).symm⟩
  · intro h
    obtain ⟨y, hy, he⟩ := List.mem_map.mp h
    exact List.any_eq_true.mpr ⟨y, hy, beq_iff_eq.mpr he.symm⟩

theorem uniqWithGo_length_le (f : JsVal → JsVal) :
    ∀ (xs res : List JsVal),
      (uniqWithGo (fun a b => f a == f b) res xs).length ≤ res.length + xs.length := by
  intro xs
  induction xs with
  | nil => intro res; simp [uniqWithGo]
  | cons x xs ih =>
      intro res
      simp only [uniqWithGo]
      by_cases hc : res.any (fun y => f x == f y) = true
      · rw [if_pos hc]
        have := ih res
        simp only [List.length_cons]
        omega
      · rw [if_neg hc]
        have := ih (res ++ [x])
        simp only [List.length_append, List.length_cons, List.length_nil] at this ⊢
        omega

theorem uniqWithGo_length_iff (f : JsVal → JsVal) :
    ∀ (xs res : List JsVal),
      ((uniqWithGo (fun a b => f a == f b) res xs).length = res.length + xs.length
        ↔ (xs.map f).Nodup ∧ ∀ x ∈ xs, f x ∉ res.map f) := by
  intro xs
  induction xs with
  | nil => intro res; simp [uniqWithGo]
  | cons x xs ih =>
      intro res
      simp only [uniqWithGo]
      by_cases hx : f x ∈ res.map f
      · rw [if_pos ((any_beq_iff_mem_map f res x).mpr hx)]
        constructor
        · intro hlen
          exfalso
          have := uniqWithGo_length_le f xs res
          simp only [List.length_cons] at hlen
          omega
        · rintro ⟨-, hall⟩
          exact absurd hx (hall x (by simp))
      · rw [if_neg (fun h => hx ((any_beq_iff_mem_map f res x).mp h))]
        have ihr := ih (res ++ [x])
        simp only [List.length_append, List.length_cons, List.length_nil,
          List.map_append, List.map_cons, List.map_nil] at ihr
        constructor
        · intro hlen
          simp only [List.length_cons] at hlen
          have hr := ihr.mp (by omega)
          obtain ⟨hnd, hall⟩ := hr
          refine ⟨?_, ?_⟩
          · simp only [List.map_cons, List.nodup_cons]
            refine ⟨?_, hnd⟩
            intro hmemx
            obtain ⟨y, hy, hfy⟩ := List.mem_map.mp hmemx
            have := hall y hy
            simp [hfy] at this
          · intro z hz
            rcases List.mem_cons.mp hz with hz | hz
            · subst hz; exact hx
            · have := hall z hz
              simp only [List.mem_append] at this
              exact fun hmm => this (Or.inl hmm)
        · rintro ⟨hnd, hall⟩
          simp only [List.map_cons, List.nodup_cons] at hnd
          have hpre : (xs.map f).Nodup ∧ ∀ z ∈ xs, f z ∉ res.map f ++ [f x] := by
            refine ⟨hnd.2, ?_⟩
            intro z hz
            simp only [List.mem_append, List.mem_singleton]
            rintro (hmm | hmm)
            · exact hall z (by simp [hz]) hmm
            · exact hnd.1 (hmm ▸ List.mem_map_of_mem f hz)
          have := ihr.mpr hpre
          simp only [List.length_cons]
          omega

theorem uniqWith_length_iff (f : JsVal → JsVal) (l : List JsVal) :
    (uniqWith (fun a b => f a == f b) l).length = l.length ↔ (l.map f).Nodup := by
  have h := uniqWithGo_length_iff f l []
  simpa [uniqWith] using h

theorem scanEnvEntries_split :
    ∀ (es : List JsVal) (defs : List JsVal) (fails : List Failure),
      scanEnvEntries defs fails es =
        ((scanEnvEntries defs [] es).1, fails ++ (scanEnvEntries defs [] es).2) := by
  intro es
  induction es with
  | nil => intro defs fails; simp [scanEnvEntries]
  | cons e es ih =>
      intro defs fails
      by_cases hs : e.isStr = true
      · simp only [scanEnvEntries, if_pos hs]
        exact ih defs fails
      · by_cases hc : defs.contains (envEntryKey e) = true
        · simp only [scanEnvEntries, if_neg hs, if_pos hc, List.nil_append]
          rw [ih defs (fails ++ [Failure.mk [] (conflictMessage e)]),
              ih defs [Failure.mk [] (conflictMessage e)]]
          simp [List.append_assoc]
        · simp only [scanEnvEntries, if_neg hs, if_neg hc]
          exact ih _ fails

theorem scanEnvEntries_fails_mem {fails : List Failure} {x : Failure}
    (es : List JsVal) (defs : List JsVal) (h : x ∈ fails) :
    x ∈ (scanEnvEntries defs fails es).2 := by
  rw [scanEnvEntries_split es defs fails]
  exact List.mem_append_left _ h

theorem scanEnvEntries_defs_mono :
    ∀ (es : List JsVal) (defs : List JsVal) (fails : List Failure) (k : JsVal),
      k ∈ defs → k ∈ (scanEnvEntries defs fails es).1 := by
  intro es
  induction es with
  | nil => intro defs fails k hk; simpa [scanEnvEntries] using hk
  | cons e es ih =>
      intro defs fails k hk
      by_cases hs : e.isStr = true
      · simp only [scanEnvEntries, if_pos hs]
        exact ih defs fails k hk
      · simp only [scanEnvEntries, if_neg hs]
        by_cases hc : defs.contains (envEntryKey e) = true
        · rw [if_pos hc, if_pos hc]
          exact ih _ _ k hk
        · rw [if_neg hc, if_neg hc]
          exact ih _ _ k (List.mem_append_left _ hk)

theorem scanEnvEntries_defs_mem :
    ∀ (es : List JsVal) (defs : List JsVal) (fails : List Failure) (e : JsVal),
      e ∈ es → e.isStr = false → envEntryKey e ∈ (scanEnvEntries defs fails es).1 := by
  intro es
  induction es with
  | nil => intro defs fails e he; exact absurd he (List.not_mem_nil e)
  | cons x es ih =>
      intro defs fails e he hstr
      rcases List.mem_cons.mp he with he | he
      · subst he
        simp only [scanEnvEntries, hstr, Bool.false_eq_true, if_false]
        by_cases hc : defs.contains (envEntryKey e) = true
        · rw [if_pos hc, if_pos hc]
          exact scanEnvEntries_defs_mono es defs _ _ (List.elem_iff.mp hc)
        · rw [if_neg hc, if_neg hc]
          exact scanEnvEntries_defs_mono es _ _ _
            (List.mem_append_right _ (List.mem_singleton.mpr rfl))
      · by_cases hs : x.isStr = true
        · simp only [scanEnvEntries, if_pos hs]
          exact ih defs fails e he hstr
        · simp only [scanEnvEntries, if_neg hs]
          exact ih _ _ e he hstr

theorem scanEnvEntries_conflict :
    ∀ (es : List JsVal) (defs : List JsVal) (fails : List Failure) (e : JsVal),
      e ∈ es → e.isStr = false → envEntryKey e ∈ defs →
      Failure.mk [] (conflictMessage e) ∈ (scanEnvEntries defs fails es).2 := by
  intro es
  induction es with
  | nil => intro defs fails e he; exact absurd he (List.not_mem_nil e)
  | cons x es ih =>
      intro defs fails e he hstr hk
      rcases List.mem_cons.mp he with he | he
      · subst he
        have hc : defs.contains (envEntryKey e) = true := List.elem_iff.mpr hk
        simp only [scanEnvEntries, hstr, Bool.false_eq_true, if_false, if_pos hc]
        exact scanEnvEntries_fails_mem es _
          (List.mem_append_right _ (List.mem_singleton.mpr rfl))
      · by_cases hs : x.isStr = true
        · simp only [scanEnvEntries, if_pos hs]
          exact ih defs fails e he hstr hk
        · simp only [scanEnvEntries, if_neg hs]
          by_cases hc : defs.contains (envEntryKey x) = true
          · rw [if_pos hc, if_pos hc]
            exact ih _ _ e he hstr hk
          · rw [if_neg hc, if_neg hc]
            exact ih _ _ e he hstr (List.mem_append_left _ hk)

theorem scanFeatures_split :
    ∀ (fs : List (String × JsVal)) (defs : List JsVal) (fails : List Failure),
      scanFeatures defs fails fs =
        ((scanFeatures defs [] fs).1, fails ++ (scanFeatures defs [] fs).2) := by
  intro fs
  induction fs with
  | nil => intro defs fails; simp [scanFeatures]
  | cons p fs ih =>
      intro defs fails
      obtain ⟨n, f⟩ := p
      simp only [scanFeatures]
      rw [scanEnvEntries_split (featureEnvList f) defs fails]
      rw [ih (scanEnvEntries defs [] (featureEnvList f)).1
            (fails ++ (scanEnvEntries defs [] (featureEnvList f)).2),
          ih (scanEnvEntries defs [] (featureEnvList f)).1
            (scanEnvEntries defs [] (featureEnvList f)).2]
      simp [List.append_assoc]

theorem scanFeatures_fails_mem {fails : List Failure} {x : Failure}
    (fs : List (String × JsVal)) (defs : List JsVal) (h : x ∈ fails) :
    x ∈ (scanFeatures defs fails fs).2 := by
  rw [scanFeatures_split fs defs fails]
  exact List.mem_append_left _ h

theorem scanFeatures_defs_mono :
    ∀ (fs : List (String × JsVal)) (defs : List JsVal) (fails : List Failure)
      (k : JsVal), k ∈ defs → k ∈ (scanFeatures defs fails fs).1 := by
  intro fs
  induction fs with
  | nil => intro defs fails k hk; simpa [scanFeatures] using hk
  | cons p fs ih =>
      intro defs fails k hk
      obtain ⟨n, f⟩ := p
      simp only [scanFeatures]
      exact ih _ _ k (scanEnvEntries_defs_mono _ defs fails k hk)

theorem scanFeatures_defs_mem :
    ∀ (fs : List (String × JsVal)) (defs : List JsVal) (fails : List Failure)
      (n : String) (f e : JsVal),
      (n, f) ∈ fs → e ∈ featureEnvList f → e.isStr = false →
      envEntryKey e ∈ (scanFeatures defs fails fs).1 := by
  intro fs
  induction fs with
  | nil => intro defs fails n f e hf; exact absurd hf (List.not_mem_nil _)
  | cons p fs ih =>
      intro defs fails n f e hf he hstr
      obtain ⟨n0, f0⟩ := p
      rcases List.mem_cons.mp hf with hf | hf
      · rw [Prod.mk.injEq] at hf
        obtain ⟨-, hf2⟩ := hf
        subst hf2
        simp only [scanFeatures]
        exact scanFeatures_defs_mono fs _ _ _
          (scanEnvEntries_defs_mem _ defs fails e he hstr)
      · simp only [scanFeatures]
        exact ih _ _ n f e hf he hstr

theorem scanFeatures_conflict :
    ∀ (fs : List (String × JsVal)) (defs : List JsVal) (fails : List Failure)
      (n : String) (f e : JsVal),
      (n, f) ∈ fs → e ∈ featureEnvList f → e.isStr = false →
      envEntryKey e ∈ defs →
      Failure.mk [] (conflictMessage e) ∈ (scanFeatures defs fails fs).2 := by
  intro fs
  induction fs with
  | nil => intro defs fails n f e hf; exact absurd hf (List.not_mem_nil _)
  | cons p fs ih =>
      intro defs fails n f e hf he hstr hk
      obtain ⟨n0, f0⟩ := p
      rcases List.mem_cons.mp hf with hf | hf
      · rw [Prod.mk.injEq] at hf
        obtain ⟨-, hf2⟩ := hf
        subst hf2
        simp only [scanFeatures]
        exact scanFeatures_fails_mem fs _
          (scanEnvEntries_conflict _ defs fails e he hstr hk)
      · simp only [scanFeatures]
        exact ih _ _ n f e hf he hstr
          (scanEnvEntries_defs_mono _ defs fails _ hk)

theorem scanFeatures_append :
    ∀ (l1 l2 : List (String × JsVal)) (defs : List JsVal) (fails : List Failure),
      scanFeatures defs fails (l1 ++ l2) =
        scanFeatures (scanFeatures defs fails l1).1 (scanFeatures defs fails l1).2 l2 := by
  intro l1
  induction l1 with
  | nil => intro l2 defs fails; simp [scanFeatures]
  | cons p l1 ih =>
      intro l2 defs fails
      obtain ⟨n, f⟩ := p
      simp only [List.cons_append, scanFeatures]
      exact ih l2 _ _

theorem isStr_iff (v : JsVal) : v.isStr = true ↔ ∃ s, v = JsVal.str s := by
  cases v <;> simp [JsVal.isStr]

theorem runEnvEntry_str {e : JsVal} (h : e.isStr = true) :
    runEnvEntry e = ([], e) := by
  obtain ⟨s, rfl⟩ := (isStr_iff e).mp h
  simp [runEnvEntry, JsVal.isStr]

theorem map_env_snd_of_strings :
    ∀ (elems : List JsVal), (∀ e ∈ elems, e.isStr = true) →
      elems.map (fun e => (runEnvEntry e).2) = elems := by
  intro elems
  induction elems with
  | nil => intro h; rfl
  | cons e es ih =>
      intro h
      have h1 := runEnvEntry_str (h e (by simp))
      have h2 := ih (fun x hx => h x (by simp [hx]))
      simp [h1, h2]

theorem runFeatures_clean {fields cfs} (h : runFeatureEntries fields = some ([], cfs)) :
    runFeatures (JsVal.obj fields) = Run.res (featureConflictScan cfs) (JsVal.obj cfs) := by
  simp [runFeatures, h, featureConflictScan]

theorem runFeatures_skip_refine {fields : List (String × JsVal)}
    {fs : List Failure} {cfs : List (String × JsVal)}
    (h : runFeatureEntries fields = some (fs, cfs)) (hne : fs ≠ []) :
    runFeatures (JsVal.obj fields) = Run.res fs (JsVal.obj cfs) := by
  have hE : fs.isEmpty = false := by
    cases fs with
    | nil => exact absurd rfl hne
    | cons a l => rfl
  simp [runFeatures, h, hE]

theorem runBuildTypesRecord_obj {v : JsVal}
    (h : (runBuildTypesRecord v).1 = []) :
    ∃ bts0, v = JsVal.obj bts0 ∧
      runBuildTypesRecord v =
        ((runBuildTypeEntries bts0).1, JsVal.obj (runBuildTypeEntries bts0).2) := by
  cases v with
  | obj bts0 => exact ⟨bts0, rfl, rfl⟩
  | str s => simp [runBuildTypesRecord] at h
  | num n => simp [runBuildTypesRecord] at h
  | bool b => simp [runBuildTypesRecord] at h
  | null => simp [runBuildTypesRecord] at h
  | undefined => simp [runBuildTypesRecord] at h
  | arr l => simp [runBuildTypesRecord] at h

theorem append_ne_of_not_dataPrefix {p s t : String} (hp : ¬ p.data <+: t.data) :
    p ++ s ≠ t := by
  intro h
  apply hp
  have h2 : p.data ++ s.data = t.data := congrArg String.data h
  rw [← h2]
  exact List.prefix_append p.data s.data

theorem unionEnvMsg_ne_declaration (v : JsVal) :
    unionEnvMsg v ≠ "Declaration should have only one property, the name" :=
  append_ne_of_not_dataPrefix (by decide)

theorem runString_ne_declaration (v : JsVal) :
    ∀ f ∈ runString v,
      f.message ≠ "Declaration should have only one property, the name" := by
  intro f hf
  cases v <;> simp only [runString] at hf <;>
    first
      | exact absurd hf (List.not_mem_nil f)
      | (rw [List.mem_singleton] at hf; rw [hf];
         exact append_ne_of_not_dataPrefix (by decide))

theorem unknownKeyFails_ne_declaration (known : List String)
    (fields : List (String × JsVal)) :
    ∀ f ∈ unknownKeyFails known fields,
      f.message ≠ "Declaration should have only one property, the name" := by
  intro f hf
  simp only [unknownKeyFails, List.mem_map] at hf
  obtain ⟨p, -, hp⟩ := hf
  rw [← hp]
  exact append_ne_of_not_dataPrefix (by decide)

theorem runKeyValueObject_ne_declaration (v : JsVal) :
    ∀ f ∈ runKeyValueObject v,
      f.message ≠ "Declaration should have only one property, the name" := by
  intro f hf
  cases v with
  | obj fields =>
      simp only [runKeyValueObject, List.mem_append] at hf
      rcases hf with hf | hf
      · split at hf
        · exact absurd hf (List.not_mem_nil f)
        · rw [List.mem_singleton] at hf
          rw [hf]
          exact append_ne_of_not_dataPrefix (by decide)
        · rw [List.mem_singleton] at hf
          rw [hf]
          exact append_ne_of_not_dataPrefix (by decide)
      · exact unknownKeyFails_ne_declaration _ _ f hf
  | str s =>
      simp only [runKeyValueObject, List.mem_singleton] at hf
      rw [hf]
      exact append_ne_of_not_dataPrefix (by decide)
  | num n =>
      simp only [runKeyValueObject, List.mem_singleton] at hf
      rw [hf]
      exact append_ne_of_not_dataPrefix (by decide)
  | bool b =>
      simp only [runKeyValueObject, List.mem_singleton] at hf
      rw [hf]
      exact append_ne_of_not_dataPrefix (by decide)
  | null =>
      simp only [runKeyValueObject, List.mem_singleton] at hf
      rw [hf]
      exact append_ne_of_not_dataPrefix (by decide)
  | undefined =>
      simp only [runKeyValueObject, List.mem_singleton] at hf
      rw [hf]
      exact append_ne_of_not_dataPrefix (by decide)
  | arr l =>
      simp only [runKeyValueObject, List.mem_singleton] at hf
      rw [hf]
      exact append_ne_of_not_dataPrefix (by decide)

/-! ### Claims -/

/-- C1, counterexample: validating `env: ["FOO"]` succeeds but leaves the bare
string `"FOO"` as the canonical entry; validating `env: [{FOO: undefined}]`
yields `{key: "FOO", value: undefined}`.  The two canonical entries differ, so
a bare string is not normalised to `{key, value}` as the claim states. -/
theorem c1_counterexample :
    runFailures (runBuildTypes docBareString) = [] ∧
    docEnv (runBuildTypes docBareString) = some (.arr [.str "FOO"]) ∧
    docEnv (runBuildTypes docObjectForm) =
      some (.arr [.obj [("key", .str "FOO"), ("value", .undefined)]]) ∧
    JsVal.str "FOO" ≠ JsVal.obj [("key", .str "FOO"), ("value", .undefined)] := by
  decide

/-- C1, amended: on every env sequence, a bare-string entry is left unchanged
by successful validation (the env-entry union matches its `string()` branch
first, which applies no coercion); only object-form entries are coerced to
`{key, value}`, so `env: ["FOO"]` and `env: [{FOO: undefined}]` normalise to
different canonical entries. -/
theorem c1_string_sugar_amended :
    (∀ s, runEnvEntry (JsVal.str s) = ([], JsVal.str s)) ∧
    (∀ elems : List JsVal, (∀ e ∈ elems, e.isStr = true) →
      (runEnvArray (JsVal.arr elems)).2 = JsVal.arr elems) ∧
    (runEnvArray (JsVal.arr [JsVal.str "FOO"])).2 ≠
      (runEnvArray (JsVal.arr [JsVal.obj [("FOO", JsVal.undefined)]])).2 := by
  refine ⟨?_, ?_, by decide⟩
  · intro s
    simp [runEnvEntry, JsVal.isStr]
  · intro elems h
    simp only [runEnvArray]
    rw [runEnvElems_snd elems 0, map_env_snd_of_strings elems h]

/-- Witness for `c1_string_sugar_amended` at a concrete all-string env
sequence. -/
theorem c1_witness :
    (runEnvArray (JsVal.arr [JsVal.str "A", JsVal.str "B"])).2 =
      JsVal.arr [JsVal.str "A", JsVal.str "B"] :=
  c1_string_sugar_amended.2.1 [JsVal.str "A", JsVal.str "B"] (by decide)

/-- C2, counterexample: the claim's own example
`features: {a: {env: ["X"]}, b: {env: ["X"]}}` validates successfully - the
conflict refiner skips every bare-string entry (`typeof env !== 'string'`), so
no failure mentioning `"X"` is produced. -/
theorem c2_counterexample :
    isSuccess (runBuildTypes docTwoBareFeatures) = true ∧
    runFailures (runBuildTypes docTwoBareFeatures) = [] := by
  decide

/-- C3: the code reads `builds.yml` at most once, but the two sequential calls
do not return the same normalised document: `loadBuildTypesConfig` ends with
`return buildsData` (the raw parsed value) while caching `result` (the
validated document), contradicting its own `@returns
{Infer<typeof BuildTypesStruct>}` annotation.  On a document using the
`{FOO: 1}` env shorthand the first call returns the raw document and the
second call returns the coerced cached one, so the results differ. -/
theorem c3_cache_returns_raw_then_normalized :
    (loadBuildTypesConfig rawBuildsC3 ⟨none, 0⟩).1 = LoadOutcome.ok rawBuildsC3 ∧
    (loadBuildTypesConfig rawBuildsC3
        (loadBuildTypesConfig rawBuildsC3 ⟨none, 0⟩).2).1 ≠
      LoadOutcome.ok rawBuildsC3 ∧
    ((loadBuildTypesConfig rawBuildsC3
        (loadBuildTypesConfig rawBuildsC3 ⟨none, 0⟩).2).1).isOk = true ∧
    (loadBuildTypesConfig rawBuildsC3
        (loadBuildTypesConfig rawBuildsC3 ⟨none, 0⟩).2).2.reads = 1 := by
  decide

/-- C4: `FeatureStruct.assets` is `optional(AssetStruct)`, but `AssetStruct`
has no runtime value (it is a TypeScript type-only export), so validating any
feature whose `assets` is present - including the bare-string sugar
`"src/**"` - evaluates `undefined.validator` and escapes with a `TypeError`
instead of normalising to `{exclusiveInclude: "src/**"}`. -/
theorem c4_assets_crash :
    runFeature (JsVal.obj [("assets", JsVal.str "src/**")]) = Run.crash ∧
    runBuildTypes docStringAsset = Run.crash := by
  decide

/-- C2, amended: whenever two distinct features (in either order, with any
features before, between and after them) declare *object-form* env entries
with the same key and every feature validates individually, validation fails
with the conflict failure for the later entry; since the statement holds for
every such pair at once and every conflict failure lands in the single
returned failure list, scanning does not stop at the first conflict.  The
message, however, interpolates the whole coerced entry - a `{key, value}`
object, rendered `[object Object]` - not the key; and bare-string entries
never participate (counterexample above).  The last conjunct shows the
concrete three-feature document reporting both conflicts. -/
theorem c2_feature_conflict_amended :
    (∀ (fields cfs pre mid post : List (String × JsVal)) (n1 n2 : String)
       (f1 f2 e1 e2 : JsVal),
       runFeatureEntries fields = some ([], cfs) →
       cfs = pre ++ (n1, f1) :: mid ++ (n2, f2) :: post →
       e1 ∈ featureEnvList f1 → e1.isStr = false →
       e2 ∈ featureEnvList f2 → e2.isStr = false →
       envEntryKey e1 = envEntryKey e2 →
       runFeatures (JsVal.obj fields) =
         Run.res (featureConflictScan cfs) (JsVal.obj cfs) ∧
       Failure.mk [] (conflictMessage e2) ∈ featureConflictScan cfs) ∧
    (∀ fs : List (String × JsVal), conflictMessage (JsVal.obj fs) =
      "Multiple defined features have a definition of \"[object Object]\" env variable, resulting in a conflict") ∧
    runFailures (runBuildTypes docThreeObjFeatures) =
      [⟨[PathElem.key "features"],
        conflictMessage (JsVal.obj [("key", JsVal.str "X"), ("value", JsVal.num 2)])⟩,
       ⟨[PathElem.key "features"],
        conflictMessage (JsVal.obj [("key", JsVal.str "X"), ("value", JsVal.num 3)])⟩] := by
  refine ⟨?_, fun fs => rfl, by decide⟩
  intro fields cfs pre mid post n1 n2 f1 f2 e1 e2 hentries hsplit he1 hs1 he2 hs2 hkey
  subst hsplit
  refine ⟨runFeatures_clean hentries, ?_⟩
  rw [featureConflictScan]
  have hassoc : pre ++ (n1, f1) :: mid ++ (n2, f2) :: post
      = (pre ++ (n1, f1) :: mid) ++ ((n2, f2) :: post) := by
    simp [List.append_assoc]
  rw [hassoc, scanFeatures_append]
  have hk1 : envEntryKey e1 ∈ (scanFeatures [] [] (pre ++ (n1, f1) :: mid)).1 :=
    scanFeatures_defs_mem _ _ _ n1 f1 e1 (by simp) he1 hs1
  rw [hkey] at hk1
  exact scanFeatures_conflict _ _ _ n2 f2 e2 (by simp) he2 hs2 hk1

/-- Witness for `c2_feature_conflict_amended` at the concrete two-feature
record `{a: {env: [{X: 1}]}, b: {env: [{X: 2}]}}`. -/
theorem c2_witness :
    runFeatures (JsVal.obj [("a", featObjX 1), ("b", featObjX 2)]) =
      Run.res (featureConflictScan [("a", cFeatObjX 1), ("b", cFeatObjX 2)])
        (JsVal.obj [("a", cFeatObjX 1), ("b", cFeatObjX 2)]) ∧
    Failure.mk []
        (conflictMessage (JsVal.obj [("key", JsVal.str "X"), ("value", JsVal.num 2)]))
      ∈ featureConflictScan [("a", cFeatObjX 1), ("b", cFeatObjX 2)] :=
  c2_feature_conflict_amended.1
    [("a", featObjX 1), ("b", featObjX 2)]
    [("a", cFeatObjX 1), ("b", cFeatObjX 2)] [] [] [] "a" "b"
    (cFeatObjX 1) (cFeatObjX 2)
    (JsVal.obj [("key", JsVal.str "X"), ("value", JsVal.num 1)])
    (JsVal.obj [("key", JsVal.str "X"), ("value", JsVal.num 2)])
    (by decide) (by decide) (by decide) (by decide) (by decide) (by decide)
    (by decide)

/-- C6: for any env sequence whose entries each validate, the `unique`
refinement fails with exactly one "Array contains duplicated values" failure
at the sequence's own path (relative path `[]`) precisely when two entries
share a key - a bare string's key being the string itself and an object
entry's key its declared key, values ignored - and produces no failure when
all keys are distinct.  The concrete conjunct locates the failure of a
duplicated sequence inside a document at `buildTypes/beta/env`. -/
theorem c6_unique_by_key :
    (∀ elems : List JsVal, (∀ e ∈ elems, (runEnvEntry e).1 = []) →
      (runEnvArray (JsVal.arr elems)).1 =
        if (elems.map entryKey).Nodup then []
        else [⟨[], "Array contains duplicated values"⟩]) ∧
    runFailures (runBuildTypes docDupBetaEnv) =
      [⟨[PathElem.key "buildTypes", PathElem.key "beta", PathElem.key "env"],
        "Array contains duplicated values"⟩] := by
  refine ⟨?_, by decide⟩
  intro elems h
  have h1 := runEnvElems_fst_nil h 0
  have h2 := runEnvElems_snd elems 0
  simp only [runEnvArray, h1, h2, List.isEmpty_nil, if_true, List.nil_append]
  have hmap : (elems.map (fun e => (runEnvEntry e).2)).map envEntryKey
      = elems.map entryKey := by
    rw [List.map_map]; rfl
  have hiff := uniqWith_length_iff envEntryKey
    (elems.map (fun e => (runEnvEntry e).2))
  rw [hmap] at hiff
  have henv : uniqWith envEq (elems.map (fun e => (runEnvEntry e).2))
      = uniqWith (fun a b => envEntryKey a == envEntryKey b)
          (elems.map (fun e => (runEnvEntry e).2)) := rfl
  by_cases hnd : (elems.map entryKey).Nodup
  · rw [if_pos hnd, if_pos]
    rw [henv, Nat.beq_eq_true_eq]
    exact hiff.mpr hnd
  · rw [if_neg hnd, if_neg]
    rw [henv, Nat.beq_eq_true_eq]
    exact fun hc => hnd (hiff.mp hc)

/-- Witness for `c6_unique_by_key` at a concrete sequence where a bare string
and an object form share the key `"A"`. -/
theorem c6_witness :
    (runEnvArray (JsVal.arr [JsVal.str "A", JsVal.obj [("A", JsVal.num 1)]])).1 =
      [⟨[], "Array contains duplicated values"⟩] := by
  have h := c6_unique_by_key.1 [JsVal.str "A", JsVal.obj [("A", JsVal.num 1)]]
    (by decide)
  rw [h]
  decide

/-- Failures of `runEnvEntry` never carry the dead coercion-condition
message: every failure is the union mismatch or a nested branch failure. -/
theorem runEnvEntry_ne_declaration (v : JsVal) :
    ∀ f ∈ (runEnvEntry v).1,
      f.message ≠ "Declaration should have only one property, the name" := by
  intro f hf
  have hfails : (runEnvEntry v).1 = [] ∨
      ∃ c, (runEnvEntry v).1 =
        Failure.mk [] (unionEnvMsg c) :: (runString c ++ runKeyValueObject c) := by
    simp only [runEnvEntry]
    repeat' split
    all_goals
      first
        | exact Or.inl rfl
        | exact Or.inr ⟨_, rfl⟩
  rcases hfails with h | ⟨c, h⟩
  · rw [h] at hf
    exact absurd hf (List.not_mem_nil f)
  · rw [h] at hf
    rcases List.mem_cons.mp hf with hf | hf
    · rw [hf]
      exact unionEnvMsg_ne_declaration c
    · rcases List.mem_append.mp hf with hf | hf
      · exact runString_ne_declaration c f hf
      · exact runKeyValueObject_ne_declaration c f hf

/-- C7, counterexample: the two-key entry `{A: 1, B: 2}` makes validation
fail, but with the env-entry union's mismatch failure followed by the nested
failures of both branches (the `string()` mismatch, the missing `key`, and the
`never` rejections of `A` and `B`) - none of them is "Declaration should have
only one property, the name": that string only occurs inside the coercion
*condition* of `EnvDefinitionStruct`, whose refinement result is consumed as a
boolean by `is(value, condition)` and never surfaces. -/
theorem c7_counterexample :
    runFailures (runBuildTypes docTwoKeyEntry) =
      [⟨[PathElem.key "env", PathElem.idx 0],
        unionEnvMsg (JsVal.obj [("A", JsVal.num 1), ("B", JsVal.num 2)])⟩,
       ⟨[PathElem.key "env", PathElem.idx 0],
        "Expected a string, but received: [object Object]"⟩,
       ⟨[PathElem.key "env", PathElem.idx 0, PathElem.key "key"],
        "Expected a string, but received: undefined"⟩,
       ⟨[PathElem.key "env", PathElem.idx 0, PathElem.key "A"],
        "Expected a value of type `never`, but received: `1`"⟩,
       ⟨[PathElem.key "env", PathElem.idx 0, PathElem.key "B"],
        "Expected a value of type `never`, but received: `2`"⟩] ∧
    (runFailures (runBuildTypes docTwoKeyEntry)).all
      (fun f => f.message != "Declaration should have only one property, the name")
      = true := by
  decide

/-- C7, amended: an env entry object with exactly one own key normalises to
`{key: <that key>, value: <its value>}`; an object with zero or more than one
own keys fails validation *unless* it already has the canonical
`{key: string, value?}` shape (which passes through unchanged) - and when it
fails, the failures are the union mismatch followed by the nested failures of
the union's two branches; the message "Declaration should have only one
property, the name" is never produced for any env entry. -/
theorem c7_single_key_amended :
    (∀ (k : String) (v : JsVal), runEnvEntry (JsVal.obj [(k, v)]) =
      ([], JsVal.obj [("key", JsVal.str k), ("value", v)])) ∧
    (∀ fields : List (String × JsVal), fields.length ≠ 1 →
      runKeyValueObject (JsVal.obj fields) ≠ [] →
      (runEnvEntry (JsVal.obj fields)).1 =
        Failure.mk [] (unionEnvMsg (JsVal.obj fields))
          :: (runString (JsVal.obj fields) ++ runKeyValueObject (JsVal.obj fields))) ∧
    (∀ (v : JsVal) (f : Failure), f ∈ (runEnvEntry v).1 →
      f.message ≠ "Declaration should have only one property, the name") := by
  refine ⟨?_, ?_, fun v => runEnvEntry_ne_declaration v⟩
  · intro k v
    simp [runEnvEntry, runEnvDefinition, envDefStep, envDefCondition,
      envDefCoerce, runKeyValueObject, objLookup, unknownKeyFails, JsVal.isStr]
  · intro fields h1 h2
    have hc : envDefCondition (JsVal.obj fields) = false := by
      simp only [envDefCondition, beq_eq_false_iff_ne, ne_eq]
      exact h1
    have hdef : envDefStep (JsVal.obj fields) = JsVal.obj fields := by
      simp [envDefStep, hc]
    have hne : (runKeyValueObject (JsVal.obj fields)).isEmpty = false := by
      cases hkv : runKeyValueObject (JsVal.obj fields) with
      | nil => exact absurd hkv h2
      | cons a l => rfl
    simp [runEnvEntry, runEnvDefinition, hdef, hne, JsVal.isStr]

/-- Witness for `c7_single_key_amended` at concrete entries: the single-key
object `{FOO: 3}` normalises, the empty object fails with the union mismatch
followed by both branches' failures. -/
theorem c7_witness :
    runEnvEntry (JsVal.obj [("FOO", JsVal.num 3)]) =
      ([], JsVal.obj [("key", JsVal.str "FOO"), ("value", JsVal.num 3)]) ∧
    (runEnvEntry (JsVal.obj [])).1 =
      Failure.mk [] (unionEnvMsg (JsVal.obj []))
        :: (runString (JsVal.obj []) ++ runKeyValueObject (JsVal.obj [])) :=
  ⟨c7_single_key_amended.1 "FOO" (JsVal.num 3),
   c7_single_key_amended.2.1 [] (by decide) (by decide)⟩

/-- C8: an already-canonical document (env entries in `{key, value}` form,
the asset in canonical `{exclusiveInclude}` form, `default` existing) does not
round-trip: the broken `assets` struct (see `c4_assets_crash`) makes
validation escape with a `TypeError` instead of succeeding.  Without any
`assets`, the same canonical document validates with no failures. -/
theorem c8_canonical_roundtrip_broken :
    runBuildTypes docCanonicalWithAsset = Run.crash ∧
    isSuccess (runBuildTypes docCanonicalNoAsset) = true := by
  decide

/-- C10, counterexample: a single feature whose env repeats the object-form
key `X` produces only the per-sequence uniqueness failure; no conflict failure
is emitted because the features refiner never runs once a feature failed
validation. -/
theorem c10_counterexample :
    runFailures (runBuildTypes docFeatDup) =
      [⟨[PathElem.key "features", PathElem.key "a", PathElem.key "env"],
        "Array contains duplicated values"⟩] ∧
    "Array contains duplicated values" ≠
      conflictMessage (JsVal.obj [("key", JsVal.str "X"), ("value", JsVal.num 1)]) := by
  decide

/-- C10, amended: the running `definitions` set of the conflict scan is indeed
never reset between features (third conjunct), but a key repeated in object
form inside one feature's own env never reaches it: the repeated key already
fails that env sequence's uniqueness refinement (second conjunct), and as soon
as any feature carries a failure the `FeaturesStruct` refinement - and with it
the whole conflict scan - is skipped, the result being exactly the per-feature
failures (first conjunct). -/
theorem c10_within_feature_amended :
    (∀ (fields : List (String × JsVal)) (fs : List Failure)
       (cfs : List (String × JsVal)),
       runFeatureEntries fields = some (fs, cfs) → fs ≠ [] →
       runFeatures (JsVal.obj fields) = Run.res fs (JsVal.obj cfs)) ∧
    runFailures (runFeature featDupObjKeys) =
      [⟨[PathElem.key "env"], "Array contains duplicated values"⟩] ∧
    (∀ (defs : List JsVal) (fails : List Failure) (fs : List (String × JsVal))
       (k : JsVal), k ∈ defs → k ∈ (scanFeatures defs fails fs).1) := by
  refine ⟨?_, by decide,
    fun defs fails fs k hk => scanFeatures_defs_mono fs defs fails k hk⟩
  intro fields fs cfs h hne
  exact runFeatures_skip_refine h hne

/-- Witness for `c10_within_feature_amended` at the concrete one-feature
record containing the duplicated object-form key. -/
theorem c10_witness :
    runFeatures (JsVal.obj [("a", featDupObjKeys)]) =
      Run.res [⟨[PathElem.key "a", PathElem.key "env"],
                "Array contains duplicated values"⟩]
        (JsVal.obj [("a", cFeatDup)]) :=
  c10_within_feature_amended.1 [("a", featDupObjKeys)]
    [⟨[PathElem.key "a", PathElem.key "env"], "Array contains duplicated values"⟩]
    [("a", cFeatDup)] (by decide) (by decide)

/-- C9: the module-level cache is only ever written on success.  If the cache
changed at all, the call validated with no failures, returned (the raw
document) and stored the validated result (first conjunct); if validation of
the loaded document fails - by failure list or by the `TypeError` crash - the
call throws, `cachedBuildTypes` stays `null`, and a subsequent call re-reads
and re-validates the source instead of returning a cached value (second and
third conjuncts: the read counter advances on both calls and the same error is
thrown again). -/
theorem c9_cache_only_on_success :
    (∀ (raw : JsVal) (st : LoadState),
       (loadBuildTypesConfig raw st).2.cachedBuildTypes ≠ st.cachedBuildTypes →
       ∃ d, runBuildTypes raw = Run.res [] d ∧
         (loadBuildTypesConfig raw st).1 = LoadOutcome.ok raw ∧
         (loadBuildTypesConfig raw st).2.cachedBuildTypes = some d) ∧
    (∀ (raw : JsVal) (st : LoadState) (fs : List Failure) (d : JsVal),
       st.cachedBuildTypes = none → runBuildTypes raw = Run.res fs d → fs ≠ [] →
       loadBuildTypesConfig raw st =
         (LoadOutcome.assertionError fs, ⟨none, st.reads + 1⟩) ∧
       loadBuildTypesConfig raw ⟨none, st.reads + 1⟩ =
         (LoadOutcome.assertionError fs, ⟨none, st.reads + 1 + 1⟩)) ∧
    (∀ (raw : JsVal) (st : LoadState),
       st.cachedBuildTypes = none → runBuildTypes raw = Run.crash →
       loadBuildTypesConfig raw st =
         (LoadOutcome.typeError, ⟨none, st.reads + 1⟩) ∧
       loadBuildTypesConfig raw ⟨none, st.reads + 1⟩ =
         (LoadOutcome.typeError, ⟨none, st.reads + 1 + 1⟩)) := by
  refine ⟨?_, ?_, ?_⟩
  · intro raw st h
    cases hc : st.cachedBuildTypes with
    | some cached => simp [loadBuildTypesConfig, hc] at h
    | none =>
        cases hr : runBuildTypes raw with
        | crash => simp [loadBuildTypesConfig, hc, hr] at h
        | res fails result =>
            by_cases hE : fails.isEmpty = true
            · have hfs : fails = [] := List.isEmpty_iff.mp hE
              subst hfs
              exact ⟨result, rfl, by simp [loadBuildTypesConfig, hc, hr],
                by simp [loadBuildTypesConfig, hc, hr]⟩
            · simp [loadBuildTypesConfig, hc, hr, hE] at h
  · intro raw st fs d hc hr hne
    have hE : fs.isEmpty = false := by
      cases fs with
      | nil => exact absurd rfl hne
      | cons a l => rfl
    constructor
    · simp [loadBuildTypesConfig, hc, hr, hE]
    · simp [loadBuildTypesConfig, hr, hE]
  · intro raw st hc hr
    constructor
    · simp [loadBuildTypesConfig, hc, hr]
    · simp [loadBuildTypesConfig, hr]

/-- Witness for `c9_cache_only_on_success` at the concrete invalid document
`docDefaultMissing`: both sequential calls from an empty cache read the file
and throw the same assertion error, leaving the cache empty. -/
theorem c9_witness :
    loadBuildTypesConfig docDefaultMissing ⟨none, 0⟩ =
      (LoadOutcome.assertionError [⟨[], defaultMissingMsg "missing"⟩],
       ⟨none, 1⟩) ∧
    loadBuildTypesConfig docDefaultMissing ⟨none, 1⟩ =
      (LoadOutcome.assertionError [⟨[], defaultMissingMsg "missing"⟩],
       ⟨none, 2⟩) :=
  c9_cache_only_on_success.2.1 docDefaultMissing ⟨none, 0⟩
    [⟨[], defaultMissingMsg "missing"⟩] docDefaultMissingNorm
    rfl (by decide) (by decide)

/-- C5: validation succeeds only if `default` names an existing build type:
every successful run's document has a string `default` that is a key of its
`buildTypes` record (first conjunct, the refinement having passed); on an
otherwise-valid document whose `default` is missing, the single failure is
`Default build type "<default>" does not exist in builds declarations`
(second conjunct), and with an existing default validation succeeds (third
conjunct). -/
theorem c5_default_exists :
    (∀ (v out : JsVal), runBuildTypes v = Run.res [] out →
       ∃ fields d bts, out = JsVal.obj fields ∧
         objLookup fields "default" = some (JsVal.str d) ∧
         objLookup fields "buildTypes" = some (JsVal.obj bts) ∧
         d ∈ bts.map Prod.fst) ∧
    runFailures (runBuildTypes docDefaultMissing) =
      [⟨[], defaultMissingMsg "missing"⟩] ∧
    isSuccess (runBuildTypes docDefaultOk) = true := by
  refine ⟨?_, by decide, by decide⟩
  intro v out h
  cases v with
  | str s => simp [runBuildTypes] at h
  | num n => simp [runBuildTypes] at h
  | bool b => simp [runBuildTypes] at h
  | null => simp [runBuildTypes] at h
  | undefined => simp [runBuildTypes] at h
  | arr es => simp [runBuildTypes] at h
  | obj fields =>
      simp only [runBuildTypes] at h
      cases hF : runFeatures ((objLookup fields "features").getD JsVal.undefined) with
      | crash => rw [hF] at h; simp at h
      | res featFails featVal =>
          rw [hF] at h
          simp only [Run.res.injEq] at h
          obtain ⟨hfails, hout⟩ := h
          rw [List.append_eq_nil] at hfails
          obtain ⟨hff, hrf⟩ := hfails
          rw [hff] at hrf
          simp only [List.isEmpty_nil, if_true] at hrf
          simp only [List.append_eq_nil] at hff
          obtain ⟨⟨⟨⟨h1, h2⟩, h3⟩, h4⟩, h5⟩ := hff
          simp only [pushKey, List.map_eq_nil_iff] at h1 h2
          obtain ⟨d, hd⟩ := (isStr_iff _).mp ((runString_eq_nil_iff _).mp h1)
          obtain ⟨bts0, hW, hrec⟩ := runBuildTypesRecord_obj h2
          rw [hd, hrec] at hrf
          simp only [defaultExistsCheck] at hrf
          by_cases hcon :
              ((runBuildTypeEntries bts0).2.map Prod.fst).contains d = true
          · subst hout
            refine ⟨_, d, (runBuildTypeEntries bts0).2, rfl, ?_, ?_, ?_⟩
            · rw [objLookup_objSet_ne _ _ (by decide),
                  objLookup_objSet_ne _ _ (by decide),
                  objLookup_objSet_ne _ _ (by decide),
                  objLookup_objSet_self, hd]
            · rw [objLookup_objSet_ne _ _ (by decide),
                  objLookup_objSet_ne _ _ (by decide),
                  objLookup_objSet_self, hrec]
            · exact List.elem_iff.mp hcon
          · rw [if_neg hcon] at hrf
            simp at hrf

/-- Witness for `c5_default_exists` at the concrete valid document
`docDefaultOk`, whose normalised form has `default = "stable"` among its
build-type keys. -/
theorem c5_witness :
    ∃ fields d bts, docDefaultOkNorm = JsVal.obj fields ∧
      objLookup fields "default" = some (JsVal.str d) ∧
      objLookup fields "buildTypes" = some (JsVal.obj bts) ∧
      d ∈ bts.map Prod.fst :=
  c5_default_exists.1 docDefaultOk docDefaultOkNorm (by decide)

end BuildConfig
